import Mathlib

/-!
Verification development for the BIN Holter → WFDB converter
(`src/converters/bin_converter.py`, class `BinConverter`).

Conventions of the shallow embedding:
* a byte is a `Nat` value (`< 256` whenever it comes from a real buffer);
* an int16 sample is an `Int` in `[-32768, 32767]`;
* the float32 arithmetic of the requantization step is modelled exactly:
  every float32 value arising here is a dyadic rational, represented by an
  integer significand, and each numpy operation performs one IEEE-754
  round-to-nearest (ties to even) to 24 significant bits;
* fallible code (`analyze_file_structure`) returns `Except`.
-/

/-- `v.astype(np.uint32) & 0x0FFF` (bin_converter.py lines 99-100): the int16
channel code is cast to uint32 (two's complement, i.e. reduction mod `2^32`)
and masked to its low 12 bits. -/
def mask12 (v : Int) : Nat := (v.emod (2 ^ 32)).toNat &&& 0x0FFF

/-- `word = (odd << 12) | even` on the masked codes (line 101); `e` is the
channel code from the even-indexed frame, `o` from the odd-indexed frame. -/
def packWord (e o : Int) : Nat := (mask12 o <<< 12) ||| mask12 e

/-- The low 3 bytes of the little-endian 32-bit serialization of `w`
(lines 102-104): little-endian byte `j` of a uint32 is `w / 256^j % 256`, and
the 4th byte is discarded. -/
def bytes3 (w : Nat) : List Nat := [w % 256, w / 256 % 256, w / 256 ^ 2 % 256]

/-- Modelled from the spec: the repository contains no decoder for the packed
.dat format; the spec's round-trip property reads a 12-bit field back as a
two's-complement value. -/
def sign12 (u : Nat) : Int := if u < 2048 then (u : Int) else (u : Int) - 4096

/-- Modelled from the spec: unpacking a 24-bit packed unit returns the
12-bit two's-complement values of the low 12 bits and the next 12 bits,
as the pair `(even, odd)`. -/
def unpack (w : Nat) : Int × Int := (sign12 (w % 4096), sign12 ((w >>> 12) % 4096))

/-- Bit length of `q` for `q < 2^15`, written as a flat comparison chain so
that it evaluates fast inside the kernel. -/
def bitlen15 (q : Nat) : Nat :=
  if q = 0 then 0 else if q < 2 then 1 else if q < 4 then 2 else if q < 8 then 3
  else if q < 16 then 4 else if q < 32 then 5 else if q < 64 then 6
  else if q < 128 then 7 else if q < 256 then 8 else if q < 512 then 9
  else if q < 1024 then 10 else if q < 2048 then 11 else if q < 4096 then 12
  else if q < 8192 then 13 else if q < 16384 then 14 else 15

/-- One IEEE-754 float32 rounding step on a positive value with integer
significand `n < 2^39`: round `n` to 24 significant bits, nearest, ties to
even.  Returns `(m, d)` with `m * 2^d` the rounded significand.  The excess
bit count is `d = bitlength n - 24`, and for `n ≥ 2^24` the bit length of `n`
is `24 + bitlength (n >>> 24)`. -/
def rhe24 (n : Nat) : Nat × Nat :=
  let d := bitlen15 (n >>> 24)
  if d = 0 then (n, 0)
  else
    let q := n >>> d
    let r := n &&& (1 <<< d - 1)
    let half := 1 <<< (d - 1)
    if half < r then (q + 1, d)
    else if r < half then (q, d)
    else (q + q % 2, d)

/-- The 24-bit significand of `float32(0.001)`: `0.001 ∈ [2^-10, 2^-9)`, so
`float32(0.001) = f32_0_001 / 2^33` with `f32_0_001` the nearest (ties to
even) integer to `2^33 / 1000`.  This is the exact scale by which
`analyze_file_structure` (line 44) converts raw int16 codes in float32. -/
def f32_0_001 : Nat :=
  let q := 2 ^ 33 / 1000
  let r := 2 ^ 33 % 1000
  if 1000 < 2 * r then q + 1 else if 2 * r < 1000 then q else q + q % 2

/-- Magnitude of the requantized code for a raw int16 magnitude `n`
(lines 44 and 82): `n * float32(0.001)` rounded to float32 (`n` itself is
exact in float32), multiplied by 200 (exact in float32) and rounded again,
then truncated toward zero by `.astype(np.int16)`.  After the two roundings
the value is `m2 * 2^(d1+d2) / 2^33`, whose floor is
`(m2 <<< (d1+d2)) >>> 33`. -/
def requantMag (n : Nat) : Nat :=
  let p := rhe24 (n * f32_0_001)
  let q := rhe24 (p.1 * 200)
  (q.1 <<< (p.2 + q.2)) >>> 33

/-- The encoder's per-sample requantization: the composition of the decoder's
`* 0.001` float32 scaling (line 44) and the encoder's
`(ecg_data * 200).astype(np.int16)` (line 82), as a function of the raw int16
code.  float32 rounding is symmetric in sign and the int16 cast truncates
toward zero, so the sign factors out; the magnitude never exceeds 6554, so
the int16 cast never wraps. -/
def requantize (r : Int) : Int :=
  if r < 0 then -(requantMag r.natAbs : Int) else (requantMag r.natAbs : Int)

/-- Frame/pair layout: exhaustive check that `requantMag` agrees with
truncated division by 5, over a balanced tree of subranges (so that kernel
reduction stays shallow); `checkTree fuel i len` checks all
`k ∈ [i, i+len)`. -/
def checkTree : Nat → Nat → Nat → Bool
  | 0, _, _ => false
  | _ + 1, _, 0 => true
  | fuel + 1, i, len + 1 =>
      if len = 0 then requantMag i == i / 5
      else
        checkTree fuel i ((len + 1) / 2) &&
        checkTree fuel (i + (len + 1) / 2) (len + 1 - (len + 1) / 2)

/-- `np.append(raw_int, raw_int[-1])` when the sample count is odd
(lines 85-87); when the length is odd the list is nonempty, so the
`getLastD` default is never read. -/
def padEven (l : List Int) : List Int :=
  if l.length % 2 = 1 then l ++ [l.getLastD 0] else l

/-- `raw_int[: n_frames * 3].reshape(n_frames, 3)` (lines 89-91): group into
3-channel frames, silently dropping a trailing remainder shorter than 3. -/
def chunk3 : List Int → List (Int × Int × Int)
  | a :: b :: c :: rest => (a, b, c) :: chunk3 rest
  | _ => []

/-- `if ecg3.shape[0] % 2 != 0: ecg3 = ecg3[:-1]` (lines 93-94). -/
def dropOddFrame (l : List (Int × Int × Int)) : List (Int × Int × Int) :=
  if l.length % 2 = 1 then l.dropLast else l

/-- The encoder's shape normalization (lines 83-96) applied to the
requantized samples: pad to an even count, group into 3-channel frames,
drop a trailing odd frame. -/
def normalizeFrames (samples : List Int) : List (Int × Int × Int) :=
  dropOddFrame (chunk3 (padEven samples))

/-- Row-major flattening of frames (inverse view of `reshape(n_frames, 3)`). -/
def flattenFrames : List (Int × Int × Int) → List Int
  | [] => []
  | (a, b, c) :: rest => a :: b :: c :: flattenFrames rest

/-- Channel `c` of a frame. -/
def ch (f : Int × Int × Int) (c : Nat) : Int :=
  if c = 0 then f.1 else if c = 1 then f.2.1 else f.2.2

/-- The 9 bytes a pair of frames contributes to the .dat file (lines 98-104):
channel 0's 3 bytes, then channel 1's, then channel 2's. -/
def pairBytes (e o : Int × Int × Int) : List Nat :=
  bytes3 (packWord e.1 o.1) ++ bytes3 (packWord e.2.1 o.2.1) ++
    bytes3 (packWord e.2.2 o.2.2)

/-- The .dat byte stream (lines 98-106): even-indexed frames pair with the
following odd-indexed frame; pairs are emitted in increasing order. -/
def datOfFrames : List (Int × Int × Int) → List Nat
  | e :: o :: rest => pairBytes e o ++ datOfFrames rest
  | _ => []

/-- Little-endian int16 view of a byte list (line 43); the trailing odd byte
never occurs, because `analyze_file_structure` fails on odd regions. -/
def toI16 : List Nat → List Int
  | b0 :: b1 :: rest =>
      (if b0 + 256 * b1 < 32768 then ((b0 + 256 * b1 : Nat) : Int)
       else ((b0 + 256 * b1 : Nat) : Int) - 65536) :: toI16 rest
  | _ => []

/-- The decoder's state after `analyze_file_structure`: `samples` holds the
raw int16 ADC codes (`ecg_data` is these codes times float32 0.001, which
`requantize` composes with the encoder's gain). -/
structure BinState where
  header : List Nat
  footer : List Nat
  samples : List Int
  sample_rate : Nat
deriving DecidableEq

/-- The decoder's failure modes: `tooSmall` is the explicit
`ValueError("Arquivo BIN muito pequeno")` (line 37); `oddRegion` models the
`ValueError` numpy's `.view(np.int16)` raises when the sample region has an
odd byte length (line 43) — the view requires the byte count to be divisible
by the new itemsize and does not trim. -/
inductive BinError
  | tooSmall
  | oddRegion
deriving DecidableEq

/-- `BinConverter.analyze_file_structure` (lines 33-47): split the raw bytes
into the 512-byte header, the int16 sample region and the 1024-byte footer,
and resolve the sample rate from header bytes [2,4). -/
def analyze_file_structure (raw : List Nat) : Except BinError BinState :=
  if raw.length < 512 + 1024 then .error .tooSmall
  else
    let header := raw.take 512
    let footer := raw.drop (raw.length - 1024)
    let region := (raw.drop 512).take (raw.length - 1536)
    if region.length % 2 = 1 then .error .oddRegion
    else
      let fs := header.getD 2 0 + 256 * header.getD 3 0
      .ok ⟨header, footer, toI16 region,
           if 100 ≤ fs ∧ fs ≤ 1000 then fs else 256⟩

/-- Python's `chr(code).isprintable() and not chr(code).isspace()` for a byte
`code ∈ [0, 255]` (line 62): the printable Latin-1 characters are U+0021..
U+007E and U+00A1..U+00FF except the soft hyphen U+00AD; the space U+0020 is
printable but excluded by `isspace`; C0/C1 controls (0x00-0x1F, 0x7F-0x9F)
and the no-break space 0xA0 are not printable. -/
def printableNonSpace (c : Nat) : Bool :=
  decide ((0x21 ≤ c ∧ c ≤ 0x7E) ∨ (0xA1 ≤ c ∧ c ≤ 0xFF ∧ c ≠ 0xAD))

/-- The slot-decoding loop of `extract_annotations` (lines 53-64): 4-byte
slots `[pos_lo, pos_hi, sym, _]`; a trailing partial slot is ignored; slots
with position 0 are skipped; unprintable symbols map to `'N'` (code 78). -/
def slotRecords : List Nat → List (Nat × Nat)
  | b0 :: b1 :: b2 :: _ :: rest =>
      if b0 + 256 * b1 = 0 then slotRecords rest
      else (b0 + 256 * b1, if printableNonSpace b2 then b2 else 78) ::
        slotRecords rest
  | _ => []

/-- Stable insertion step: insert `x` before the first element whose position
is not smaller, so that elements with equal positions keep their original
order (Python's `list.sort` is stable). -/
def insertPos (x : Nat × Nat) : List (Nat × Nat) → List (Nat × Nat)
  | [] => [x]
  | y :: ys => if y.1 < x.1 then y :: insertPos x ys else x :: y :: ys

/-- Stable sort by position (`ann.sort(key=lambda x: x[0])`, line 66). -/
def sortPos : List (Nat × Nat) → List (Nat × Nat)
  | [] => []
  | x :: xs => insertPos x (sortPos xs)

/-- The strict-increase forward scan (lines 68-73); `last` starts at `-1`. -/
def monoFilter (last : Int) : List (Nat × Nat) → List (Nat × Nat)
  | [] => []
  | p :: rest =>
      if last < (p.1 : Int) then p :: monoFilter (p.1 : Int) rest
      else monoFilter last rest

/-- `BinConverter.extract_annotations` (lines 49-74). -/
def extract_annotations (footer : List Nat) : List (Nat × Nat) :=
  monoFilter (-1) (sortPos (slotRecords footer))

/-- First line of the .hea file (line 111):
`f"{base} 3 {ecg3.shape[0]} {self.sample_rate}"`. -/
def heaFirstLine (base : String) (nFrames rate : Nat) : String :=
  base ++ " 3 " ++ toString nFrames ++ " " ++ toString rate

/-- The .dat bytes produced by `convert_to_wfdb` from a decoded state
(lines 81-106). -/
def convert_dat (st : BinState) : List Nat :=
  datOfFrames (normalizeFrames (st.samples.map requantize))

/-- The first .hea line produced by `convert_to_wfdb` (lines 109-111);
`ecg3.shape[0]` is the frame count after the odd-frame drop. -/
def convert_hea1 (base : String) (st : BinState) : String :=
  heaFirstLine base (normalizeFrames (st.samples.map requantize)).length
    st.sample_rate

/-- Whether `convert_to_wfdb` writes an .atr file (lines 119-130): only when
at least one annotation survives extraction. -/
def atrProduced (st : BinState) : Bool :=
  !(extract_annotations st.footer).isEmpty

/-- Little-endian int16 encoding of a sample value (test-input builder). -/
def int16Bytes (v : Int) : List Nat :=
  [(v.emod 65536).toNat % 256, (v.emod 65536).toNat / 256]

/-- The 18 sample values of the end-to-end scenario (§8 of the spec). -/
def c9middle : List Int :=
  [100, -100, 200, -200, 300, -300, 400, -400, 500, -500,
   600, -600, 700, -700, 800, -800, 900, -900]

/-- The end-to-end scenario input: header bytes [2,4) = [0xFA, 0x00]
(rate 250), 18 raw int16 samples, zero-filled 1024-byte footer. -/
def c9raw : List Nat :=
  (0 :: 0 :: 250 :: 0 :: List.replicate 508 0) ++
    (c9middle.map int16Bytes).flatten ++ List.replicate 1024 0

/-- The decoded state of the end-to-end scenario. -/
def c9st : BinState :=
  ⟨0 :: 0 :: 250 :: 0 :: List.replicate 508 0, List.replicate 1024 0,
   c9middle, 250⟩

/-- An all-zero well-sized input (rate field 0, so the default applies). -/
def c8raw : List Nat := List.replicate 1536 0

/-- The decoded state of the all-zero input. -/
def c8st : BinState :=
  ⟨List.replicate 512 0, List.replicate 1024 0, [], 256⟩

/-- Witness inputs for the noninterference claim: equal 6-byte sample
regions, different headers and footers. -/
def c10mid : List Nat := [10, 0, 20, 0, 30, 0]

def c10raw1 : List Nat :=
  List.replicate 512 0 ++ c10mid ++ List.replicate 1024 0

def c10raw2 : List Nat :=
  List.replicate 512 9 ++ c10mid ++ List.replicate 1024 3

def c10st1 : BinState :=
  ⟨List.replicate 512 0, List.replicate 1024 0, [10, 20, 30], 256⟩

def c10st2 : BinState :=
  ⟨List.replicate 512 9, List.replicate 1024 3, [10, 20, 30], 256⟩

example : f32_0_001 = 8589935 := by decide
example : requantize 3 = 0 := by decide
example : requantize 5 = 1 := by decide
example : requantize (-7) = -1 := by decide
example : requantize 100 = 20 := by decide
example : mask12 2048 = 2048 := by decide
example : unpack (packWord (-5) 7) = (-5, 7) := by decide
example : normalizeFrames [1, 2, 3, 4, 5, 6, 7] =
    [(1, 2, 3), (4, 5, 6)] := by decide
example : extract_annotations
    [50, 0, 65, 0, 30, 0, 66, 0, 30, 0, 67, 0, 80, 0, 68, 0, 10, 0, 69, 0] =
    [(10, 69), (30, 66), (50, 65), (80, 68)] := by decide

/-! ### Helper lemmas about the 12-bit mask and packing -/

lemma mask12_emod (v : Int) : (mask12 v : Int) = v % 4096 := by
  have hand : (v.emod (2 ^ 32)).toNat &&& 0x0FFF =
      (v.emod (2 ^ 32)).toNat % 4096 := by
    have h := Nat.and_pow_two_sub_one_eq_mod (v.emod (2 ^ 32)).toNat 12
    norm_num at h
    exact h
  unfold mask12
  rw [hand]
  have hemod : v.emod (2 ^ 32) = v % (2 ^ 32) := rfl
  rw [hemod]
  omega

lemma mask12_lt (v : Int) : mask12 v < 2 ^ 12 :=
  Nat.and_lt_two_pow _ (by norm_num)

lemma packWord_eq (e o : Int) : packWord e o = 4096 * mask12 o + mask12 e := by
  unfold packWord
  calc mask12 o <<< 12 ||| mask12 e
      = 2 ^ 12 * mask12 o ||| mask12 e := by
        rw [Nat.shiftLeft_eq, Nat.mul_comm]
    _ = 2 ^ 12 * mask12 o + mask12 e :=
        (Nat.mul_add_lt_is_or (mask12_lt e) _).symm
    _ = 4096 * mask12 o + mask12 e := by norm_num

/-- C1: round-trip of the 212-style packing: for codes `e`, `o` in
[-2048, 2047], packing into `((o & 0xFFF) << 12) | (e & 0xFFF)` and reading
back the low and the next 12 bits as 12-bit two's-complement values returns
exactly `(e, o)`. -/
theorem c1_pack_roundtrip (e o : Int) (he1 : -2048 ≤ e) (he2 : e ≤ 2047)
    (ho1 : -2048 ≤ o) (ho2 : o ≤ 2047) :
    unpack (packWord e o) = (e, o) := by
  have hme := mask12_emod e
  have hmo := mask12_emod o
  have hlte := mask12_lt e
  have hlto := mask12_lt o
  unfold unpack sign12
  rw [packWord_eq]
  have h1 : (4096 * mask12 o + mask12 e) % 4096 = mask12 e := by omega
  have h2 : ((4096 * mask12 o + mask12 e) >>> 12) % 4096 = mask12 o := by
    rw [Nat.shiftRight_eq_div_pow]
    omega
  rw [h1, h2]
  simp only [Prod.mk.injEq]
  refine ⟨?_, ?_⟩ <;> split_ifs <;> omega

/-- C1 witness: the round-trip at the extreme pair (-2048, 2047). -/
theorem c1_pack_roundtrip_witness :
    unpack (packWord (-2048) 2047) = (-2048, 2047) :=
  c1_pack_roundtrip (-2048) 2047 (by decide) (by decide) (by decide)
    (by decide)

/-- C7: wrap, not clamp: packing 2048 produces the same 12-bit code as
packing -2048; in general the mask reduces every code modulo 4096, and 2048
is not sent to the code of the range boundary 2047. -/
theorem c7_wrap_not_clamp :
    mask12 2048 = mask12 (-2048) ∧
    (∀ v : Int, (mask12 v : Int) = v % 4096) ∧
    mask12 2048 ≠ mask12 2047 :=
  ⟨by decide, mask12_emod, by decide⟩

/-! ### Helper lemmas about shape normalization and the .dat layout -/

lemma chunk3_length : ∀ l : List Int, (chunk3 l).length = l.length / 3
  | [] => rfl
  | [_] => by simp [chunk3]
  | [_, _] => by simp [chunk3]
  | _ :: _ :: _ :: rest => by
      have ih := chunk3_length rest
      simp only [chunk3, List.length_cons, ih]
      omega

lemma flatten_chunk3 :
    ∀ l : List Int, flattenFrames (chunk3 l) = l.take (3 * (l.length / 3))
  | [] => rfl
  | [_] => by simp [chunk3, flattenFrames]
  | [_, _] => by simp [chunk3, flattenFrames]
  | a :: b :: c :: rest => by
      have ih := flatten_chunk3 rest
      have h3 : 3 * ((rest.length + 1 + 1 + 1) / 3) =
          3 * (rest.length / 3) + 1 + 1 + 1 := by
        omega
      simp only [chunk3, flattenFrames, ih, List.length_cons, h3,
        List.take_succ_cons]

lemma flatten_take :
    ∀ (fr : List (Int × Int × Int)) (m : Nat),
      flattenFrames (fr.take m) = (flattenFrames fr).take (3 * m)
  | [], m => by simp [flattenFrames]
  | _ :: _, 0 => by simp [flattenFrames]
  | (a, b, c) :: rest, m + 1 => by
      have ih := flatten_take rest m
      have h3 : 3 * (m + 1) = 3 * m + 1 + 1 + 1 := by omega
      simp only [List.take_succ_cons, flattenFrames, ih, h3]

lemma dropOdd_take (l : List (Int × Int × Int)) :
    dropOddFrame l = l.take (l.length - l.length % 2) := by
  unfold dropOddFrame
  split_ifs with h
  · rw [List.dropLast_eq_take]
    congr 1
    omega
  · have h0 : l.length - l.length % 2 = l.length := by omega
    rw [h0, List.take_length]

lemma dropOdd_length (l : List (Int × Int × Int)) :
    (dropOddFrame l).length = l.length - l.length % 2 := by
  unfold dropOddFrame
  split_ifs with h
  · simp only [List.length_dropLast]
    omega
  · omega

lemma padEven_length (l : List Int) :
    (padEven l).length = l.length + l.length % 2 := by
  unfold padEven
  split_ifs with h
  · simp only [List.length_append, List.length_cons, List.length_nil]
    omega
  · omega

/-- C5: shape normalization is a pure function of the raw sample count:
with `n` samples, `n' = n + n % 2` after duplicate-padding, `m = n' / 3`
frames, and `f = m - m % 2` frames after dropping a trailing odd frame, the
encoder retains exactly `f` frames, i.e. the first `3 * f` padded samples in
row-major order, and silently drops the rest. -/
theorem c5_shape_normalization (samples : List Int) :
    (normalizeFrames samples).length =
      (samples.length + samples.length % 2) / 3 -
        ((samples.length + samples.length % 2) / 3) % 2 ∧
    flattenFrames (normalizeFrames samples) =
      (padEven samples).take
        (3 * ((samples.length + samples.length % 2) / 3 -
          ((samples.length + samples.length % 2) / 3) % 2)) := by
  constructor
  · unfold normalizeFrames
    rw [dropOdd_length, chunk3_length, padEven_length]
  · unfold normalizeFrames
    rw [dropOdd_take, flatten_take, flatten_chunk3, List.take_take,
        chunk3_length, padEven_length]
    congr 1
    omega

lemma getD_append_left (l1 l2 : List Nat) (n : Nat) (h : n < l1.length) :
    (l1 ++ l2).getD n 0 = l1.getD n 0 := by
  simp [List.getD_eq_getElem?_getD, List.getElem?_append_left h]

lemma getD_append_right' (l1 l2 : List Nat) (n : Nat) (h : l1.length ≤ n) :
    (l1 ++ l2).getD n 0 = l2.getD (n - l1.length) 0 := by
  simp [List.getD_eq_getElem?_getD, List.getElem?_append_right h]

lemma datOfFrames_length :
    ∀ fr : List (Int × Int × Int), fr.length % 2 = 0 →
      (datOfFrames fr).length = 9 * (fr.length / 2)
  | [], _ => rfl
  | [_], h => by simp at h
  | e :: o :: rest, h => by
      have hr : rest.length % 2 = 0 := by
        simp only [List.length_cons] at h
        omega
      have ih := datOfFrames_length rest hr
      simp only [datOfFrames, List.length_append, List.length_cons, ih]
      have h9 : (pairBytes e o).length = 9 := rfl
      rw [h9]
      omega

lemma datOfFrames_byte :
    ∀ (fr : List (Int × Int × Int)) (k c j : Nat), fr.length % 2 = 0 →
      k < fr.length / 2 → c < 3 → j < 3 →
      (datOfFrames fr).getD (9 * k + (3 * c + j)) 0 =
        packWord (ch (fr.getD (2 * k) (0, 0, 0)) c)
          (ch (fr.getD (2 * k + 1) (0, 0, 0)) c) / 256 ^ j % 256
  | [], k, c, j, _, hk, _, _ => by simp at hk
  | [_], _, _, _, h, _, _, _ => by simp at h
  | e :: o :: rest, 0, c, j, _, _, hc, hj => by
      have hidx : 3 * c + j < (pairBytes e o).length := by
        have h9 : (pairBytes e o).length = 9 := rfl
        omega
      rw [show datOfFrames (e :: o :: rest) = pairBytes e o ++ datOfFrames rest
            from rfl,
          show (9 : Nat) * 0 + (3 * c + j) = 3 * c + j by omega,
          getD_append_left _ _ _ hidx]
      interval_cases c <;> interval_cases j <;>
        simp [pairBytes, bytes3, ch, packWord]
  | e :: o :: rest, k + 1, c, j, h, hk, hc, hj => by
      have hr : rest.length % 2 = 0 := by
        simp only [List.length_cons] at h
        omega
      have hk' : k < rest.length / 2 := by
        simp only [List.length_cons] at hk
        omega
      have ih := datOfFrames_byte rest k c j hr hk' hc hj
      have h9 : (pairBytes e o).length = 9 := rfl
      rw [show datOfFrames (e :: o :: rest) = pairBytes e o ++ datOfFrames rest
            from rfl,
          getD_append_right' _ _ _ (by omega)]
      rw [show 9 * (k + 1) + (3 * c + j) - (pairBytes e o).length =
            9 * k + (3 * c + j) by omega]
      rw [show 2 * (k + 1) = 2 * k + 1 + 1 by omega]
      simpa using ih

/-- C2: byte layout of the .dat stream: for a normalized (even-length) frame
list the stream has `9 * n_pairs` bytes, and for pair `k`, channel `c`,
byte `j`, the byte at offset `9k + 3c + j` is little-endian byte `j` of
`((frame[2k+1][c] & 0xFFF) << 12) | (frame[2k][c] & 0xFFF)` — channel-major
within each pair, pair-major overall. -/
theorem c2_dat_layout (frames : List (Int × Int × Int))
    (hEven : frames.length % 2 = 0) :
    (datOfFrames frames).length = 9 * (frames.length / 2) ∧
    ∀ k c j, k < frames.length / 2 → c < 3 → j < 3 →
      (datOfFrames frames).getD (9 * k + (3 * c + j)) 0 =
        packWord (ch (frames.getD (2 * k) (0, 0, 0)) c)
          (ch (frames.getD (2 * k + 1) (0, 0, 0)) c) / 256 ^ j % 256 :=
  ⟨datOfFrames_length frames hEven,
   fun k c j hk hc hj => datOfFrames_byte frames k c j hEven hk hc hj⟩

/-- C2 witness: the layout applied to a concrete 2-frame (1-pair) list:
byte 3 (pair 0, channel 1, byte 0) is the low byte of the word packing
channel 1 of the two frames. -/
theorem c2_dat_layout_witness :
    (datOfFrames [(1, 2, 3), (4, 5, 6)]).getD 3 0 = packWord 2 5 / 256 ^ 0 % 256 := by
  have h := (c2_dat_layout [(1, 2, 3), (4, 5, 6)] (by decide)).2 0 1 0
    (by decide) (by decide) (by decide)
  simpa [ch] using h

/-! ### The size gate of the decoder and the sample-rate resolution -/

set_option maxRecDepth 100000 in
/-- C3 counterexample: an input of 1537 bytes is well-sized (≥ 1536) yet the
decoder raises: the 1-byte sample region has odd length and numpy's
`.view(np.int16)` fails — the length is not trimmed. -/
theorem c3_counterexample :
    analyze_file_structure (List.replicate 1537 0) = .error .oddRegion ∧
    1536 ≤ (List.replicate 1537 (0 : Nat)).length := by
  constructor
  · rfl
  · simp

/-- C3 amended: the decoder fails with the size error iff the input is
smaller than 1536 bytes; an input of length ≥ 1536 decodes without raising
iff its length is even; odd-length inputs of length ≥ 1536 raise the
numpy view error instead (the odd byte is not trimmed). -/
theorem c3_size_gate (raw : List Nat) :
    (analyze_file_structure raw = .error .tooSmall ↔ raw.length < 1536) ∧
    ((∃ st, analyze_file_structure raw = .ok st) ↔
      1536 ≤ raw.length ∧ raw.length % 2 = 0) ∧
    (analyze_file_structure raw = .error .oddRegion ↔
      1536 ≤ raw.length ∧ raw.length % 2 = 1) := by
  simp only [analyze_file_structure]
  split_ifs with h1 h2 h3
  · exact ⟨iff_of_true rfl (by omega),
      iff_of_false (by simp) (by omega),
      iff_of_false (by simp) (by omega)⟩
  · have hL : raw.length % 2 = 1 := by
      simp only [List.length_take, List.length_drop] at h2
      omega
    exact ⟨iff_of_false (by simp) (by omega),
      iff_of_false (by simp) (by omega),
      iff_of_true rfl (by omega)⟩
  · have hL : raw.length % 2 = 0 := by
      simp only [List.length_take, List.length_drop] at h2
      omega
    exact ⟨iff_of_false (by simp) (by omega),
      iff_of_true ⟨_, rfl⟩ (by omega),
      iff_of_false (by simp) (by omega)⟩
  · have hL : raw.length % 2 = 0 := by
      simp only [List.length_take, List.length_drop] at h2
      omega
    exact ⟨iff_of_false (by simp) (by omega),
      iff_of_true ⟨_, rfl⟩ (by omega),
      iff_of_false (by simp) (by omega)⟩

lemma getD_take (l : List Nat) (n i d : Nat) (h : i < n) :
    (l.take n).getD i d = l.getD i d := by
  simp [List.getD_eq_getElem?_getD, List.getElem?_take_of_lt h]

/-- C8: the effective sample rate equals the little-endian u16 at header
bytes [2,4) when that value lies in [100, 1000], and the fixed default 256
otherwise; it is a pure function of the input, fixed at decode time. -/
theorem c8_rate_resolution (raw : List Nat) (st : BinState)
    (h : analyze_file_structure raw = .ok st) :
    st.sample_rate =
      if 100 ≤ raw.getD 2 0 + 256 * raw.getD 3 0 ∧
          raw.getD 2 0 + 256 * raw.getD 3 0 ≤ 1000 then
        raw.getD 2 0 + 256 * raw.getD 3 0
      else 256 := by
  simp only [analyze_file_structure] at h
  rw [getD_take raw 512 2 0 (by omega), getD_take raw 512 3 0 (by omega)] at h
  split_ifs at h with h1 h2 h3 <;>
  first
    | (simp at h; done)
    | (injection h with h4; rw [← h4, if_pos h3])
    | (injection h with h4; rw [← h4, if_neg h3])

set_option maxRecDepth 100000 in
/-- C8 witness: the all-zero well-sized input resolves to the default
rate 256. -/
theorem c8_rate_resolution_witness :
    c8st.sample_rate =
      if 100 ≤ c8raw.getD 2 0 + 256 * c8raw.getD 3 0 ∧
          c8raw.getD 2 0 + 256 * c8raw.getD 3 0 ≤ 1000 then
        c8raw.getD 2 0 + 256 * c8raw.getD 3 0
      else 256 :=
  c8_rate_resolution c8raw c8st (by rfl)

/-! ### Helper lemmas about annotation extraction -/

lemma monoFilter_gt :
    ∀ (l : List (Nat × Nat)) (last : Int) (x : Nat × Nat),
      x ∈ monoFilter last l → last < (x.1 : Int)
  | [], _, x, hx => by simp [monoFilter] at hx
  | p :: rest, last, x, hx => by
      rw [monoFilter] at hx
      split_ifs at hx with h
      · rcases List.mem_cons.mp hx with rfl | h2
        · exact h
        · exact lt_trans h (monoFilter_gt rest _ x h2)
      · exact monoFilter_gt rest last x hx

lemma monoFilter_pairwise :
    ∀ (l : List (Nat × Nat)) (last : Int),
      List.Pairwise (fun a b : Nat × Nat => a.1 < b.1) (monoFilter last l)
  | [], _ => by simp [monoFilter]
  | p :: rest, last => by
      rw [monoFilter]
      split_ifs with h
      · refine List.Pairwise.cons ?_ (monoFilter_pairwise rest _)
        intro b hb
        have := monoFilter_gt rest _ b hb
        exact_mod_cast this
      · exact monoFilter_pairwise rest last

lemma monoFilter_sublist :
    ∀ (l : List (Nat × Nat)) (last : Int), (monoFilter last l).Sublist l
  | [], _ => by simp [monoFilter]
  | p :: rest, last => by
      rw [monoFilter]
      split_ifs with h
      · exact (monoFilter_sublist rest _).cons₂ p
      · exact (monoFilter_sublist rest last).cons p

lemma mem_insertPos (x y : Nat × Nat) :
    ∀ l : List (Nat × Nat), y ∈ insertPos x l → y = x ∨ y ∈ l
  | [], h => by
      rw [insertPos] at h
      exact Or.inl (List.mem_singleton.mp h)
  | z :: zs, h => by
      rw [insertPos] at h
      split_ifs at h with hcmp
      · rcases List.mem_cons.mp h with rfl | h2
        · exact Or.inr (List.mem_cons_self _ _)
        · rcases mem_insertPos x y zs h2 with h3 | h3
          · exact Or.inl h3
          · exact Or.inr (List.mem_cons_of_mem _ h3)
      · rcases List.mem_cons.mp h with rfl | h2
        · exact Or.inl rfl
        · exact Or.inr h2

lemma mem_sortPos (y : Nat × Nat) :
    ∀ l : List (Nat × Nat), y ∈ sortPos l → y ∈ l
  | [], h => by simpa [sortPos] using h
  | x :: xs, h => by
      rw [sortPos] at h
      rcases mem_insertPos x y (sortPos xs) h with rfl | h2
      · exact List.mem_cons_self _ _
      · exact List.mem_cons_of_mem _ (mem_sortPos y xs h2)

lemma slotRecords_pos :
    ∀ l : List Nat, ∀ r ∈ slotRecords l, 0 < r.1
  | [], r, hr => by simp [slotRecords] at hr
  | [_], r, hr => by simp [slotRecords] at hr
  | [_, _], r, hr => by simp [slotRecords] at hr
  | [_, _, _], r, hr => by simp [slotRecords] at hr
  | b0 :: b1 :: b2 :: b3 :: rest, r, hr => by
      rw [slotRecords] at hr
      split_ifs at hr with h0 hp
      · exact slotRecords_pos rest r hr
      · rcases List.mem_cons.mp hr with rfl | h2
        · simpa using Nat.pos_of_ne_zero h0
        · exact slotRecords_pos rest r h2
      · rcases List.mem_cons.mp hr with rfl | h2
        · simpa using Nat.pos_of_ne_zero h0
        · exact slotRecords_pos rest r h2

lemma slotRecords_sym :
    ∀ l : List Nat, ∀ r ∈ slotRecords l,
      printableNonSpace r.2 = true ∨ r.2 = 78
  | [], r, hr => by simp [slotRecords] at hr
  | [_], r, hr => by simp [slotRecords] at hr
  | [_, _], r, hr => by simp [slotRecords] at hr
  | [_, _, _], r, hr => by simp [slotRecords] at hr
  | b0 :: b1 :: b2 :: b3 :: rest, r, hr => by
      rw [slotRecords] at hr
      split_ifs at hr with h0 hp
      · exact slotRecords_sym rest r hr
      · rcases List.mem_cons.mp hr with rfl | h2
        · exact Or.inl hp
        · exact slotRecords_sym rest r h2
      · rcases List.mem_cons.mp hr with rfl | h2
        · exact Or.inr rfl
        · exact slotRecords_sym rest r h2

/-- C6: the annotation pipeline decodes 4-byte slots (skipping position-0
slots, so every decoded position is positive, and mapping each symbol to a
printable non-space byte or to 'N' = 78), stably sorts the records by
position, then keeps only strictly increasing positions: the output is a
sublist of the sorted records whose positions are strictly increasing. -/
theorem c6_annotation_pipeline (footer : List Nat) :
    List.Pairwise (fun a b : Nat × Nat => a.1 < b.1)
      (extract_annotations footer) ∧
    (extract_annotations footer).Sublist (sortPos (slotRecords footer)) ∧
    (∀ r ∈ slotRecords footer, 0 < r.1) ∧
    (∀ r ∈ extract_annotations footer,
      printableNonSpace r.2 = true ∨ r.2 = 78) := by
  unfold extract_annotations
  refine ⟨monoFilter_pairwise _ _, monoFilter_sublist _ _,
    slotRecords_pos footer, ?_⟩
  intro r hr
  exact slotRecords_sym footer r
    (mem_sortPos r _ ((monoFilter_sublist _ _).subset hr))

/-- C6 witness: the pipeline on the spec's example footer (slot positions
50, 30, 30, 80, 10) yields strictly increasing positions. -/
theorem c6_annotation_pipeline_witness :
    List.Pairwise (fun a b : Nat × Nat => a.1 < b.1)
      (extract_annotations
        [50, 0, 65, 0, 30, 0, 66, 0, 30, 0, 67, 0, 80, 0, 68, 0,
         10, 0, 69, 0]) :=
  (c6_annotation_pipeline
    [50, 0, 65, 0, 30, 0, 66, 0, 30, 0, 67, 0, 80, 0, 68, 0,
     10, 0, 69, 0]).1

/-! ### The end-to-end scenario and noninterference of the .dat bytes -/

set_option maxRecDepth 200000 in
/-- C9 counterexample: in the end-to-end scenario (rate 250, 18 raw int16
samples, zero footer) the .dat stream has 27 bytes — 3 pairs × 3 channels ×
3 bytes — not 9 as claimed. -/
theorem c9_counterexample :
    analyze_file_structure c9raw = .ok c9st ∧
    (convert_dat c9st).length = 27 ∧ (27 : Nat) ≠ 9 :=
  ⟨rfl, rfl, by decide⟩

set_option maxRecDepth 200000 in
/-- C9 amended: the end-to-end scenario yields the .hea first line
`"<base> 3 6 250"`, a .dat stream of 9 * 3 = 27 bytes (3 pairs, 3 channels,
3 bytes each), and no .atr file. -/
theorem c9_end_to_end :
    analyze_file_structure c9raw = .ok c9st ∧
    convert_hea1 "rec" c9st = "rec 3 6 250" ∧
    (convert_dat c9st).length = 9 * 3 ∧
    atrProduced c9st = false :=
  ⟨rfl, rfl, rfl, rfl⟩

lemma analyze_fields (raw : List Nat) (st : BinState)
    (h : analyze_file_structure raw = .ok st) :
    st.header = raw.take 512 ∧
    st.footer = raw.drop (raw.length - 1024) ∧
    st.samples = toI16 ((raw.drop 512).take (raw.length - 1536)) ∧
    st.sample_rate =
      (if 100 ≤ raw.getD 2 0 + 256 * raw.getD 3 0 ∧
          raw.getD 2 0 + 256 * raw.getD 3 0 ≤ 1000 then
        raw.getD 2 0 + 256 * raw.getD 3 0
      else 256) := by
  simp only [analyze_file_structure] at h
  rw [getD_take raw 512 2 0 (by omega), getD_take raw 512 3 0 (by omega)] at h
  generalize hA : raw.length - 1536 = A at h ⊢
  generalize hB : raw.length - 1024 = B at h ⊢
  split_ifs at h with h1 h2 h3
  · injection h with h4
    subst h4
    exact ⟨rfl, rfl, rfl, (if_pos h3).symm⟩
  · injection h with h4
    subst h4
    exact ⟨rfl, rfl, rfl, (if_neg h3).symm⟩
  all_goals simp at h

/-- C10: the .dat bytes depend only on the sample region: decoded states of
two well-sized inputs of equal length with identical regions [512, L-1024)
produce identical .dat bytes; the header influences only the rate (hence the
.hea line), and the footer only the annotations. -/
theorem c10_dat_noninterference (raw1 raw2 : List Nat) (st1 st2 : BinState)
    (hlen : raw1.length = raw2.length)
    (hmid : (raw1.drop 512).take (raw1.length - 1536) =
      (raw2.drop 512).take (raw2.length - 1536))
    (h1 : analyze_file_structure raw1 = .ok st1)
    (h2 : analyze_file_structure raw2 = .ok st2) :
    convert_dat st1 = convert_dat st2 ∧
    (raw1.getD 2 0 = raw2.getD 2 0 → raw1.getD 3 0 = raw2.getD 3 0 →
      st1.sample_rate = st2.sample_rate ∧
      convert_hea1 "x" st1 = convert_hea1 "x" st2) ∧
    (raw1.drop (raw1.length - 1024) = raw2.drop (raw2.length - 1024) →
      extract_annotations st1.footer = extract_annotations st2.footer) := by
  obtain ⟨hh1, hf1, hs1, hr1⟩ := analyze_fields raw1 st1 h1
  obtain ⟨hh2, hf2, hs2, hr2⟩ := analyze_fields raw2 st2 h2
  refine ⟨?_, ?_, ?_⟩
  · unfold convert_dat
    rw [hs1, hs2, hmid]
  · intro ha hb
    constructor
    · rw [hr1, hr2, ha, hb]
    · unfold convert_hea1
      rw [hs1, hs2, hmid, hr1, hr2, ha, hb]
  · intro hf
    rw [hf1, hf2, hf]

set_option maxRecDepth 200000 in
/-- C10 witness: two concrete 1542-byte inputs sharing the 6-byte sample
region but with different headers and footers produce identical .dat bytes. -/
theorem c10_dat_noninterference_witness :
    convert_dat c10st1 = convert_dat c10st2 :=
  (c10_dat_noninterference c10raw1 c10raw2 c10st1 c10st2 rfl rfl rfl rfl).1

/-! ### Exhaustive verification of the requantization against truncated
division by 5, and the settled requantization claim -/

set_option maxHeartbeats 10000000 in
set_option maxRecDepth 4000 in
lemma requant_chunk0 : checkTree 14 0 8192 = true := by decide

set_option maxHeartbeats 10000000 in
set_option maxRecDepth 4000 in
lemma requant_chunk1 : checkTree 14 8192 8192 = true := by decide

set_option maxHeartbeats 10000000 in
set_option maxRecDepth 4000 in
lemma requant_chunk2 : checkTree 14 16384 8192 = true := by decide

set_option maxHeartbeats 10000000 in
set_option maxRecDepth 4000 in
lemma requant_chunk3 : checkTree 15 24576 8193 = true := by decide

lemma checkTree_sound :
    ∀ (fuel i len : Nat), checkTree fuel i len = true →
      ∀ k, i ≤ k → k < i + len → requantMag k = k / 5 := by
  intro fuel
  induction fuel with
  | zero =>
      intro i len h
      simp [checkTree] at h
  | succ f ih =>
      intro i len h k hik hkl
      cases len with
      | zero => omega
      | succ len' =>
          simp only [checkTree] at h
          by_cases h0 : len' = 0
          · subst h0
            rw [if_pos rfl] at h
            have hreq : requantMag i = i / 5 := by simpa using h
            have hk : k = i := by omega
            rw [hk]
            exact hreq
          · rw [if_neg h0] at h
            rw [Bool.and_eq_true] at h
            rcases h with ⟨hL, hR⟩
            rcases Nat.lt_or_ge k (i + (len' + 1) / 2) with hlt | hge
            · exact ih i ((len' + 1) / 2) hL k hik hlt
            · exact ih (i + (len' + 1) / 2) (len' + 1 - (len' + 1) / 2) hR k
                hge (by omega)

lemma requantMag_eq_div5 (n : Nat) (h : n ≤ 32768) : requantMag n = n / 5 := by
  rcases Nat.lt_or_ge n 8192 with h1 | h1
  · exact checkTree_sound 14 0 8192 requant_chunk0 n (by omega) (by omega)
  rcases Nat.lt_or_ge n 16384 with h2 | h2
  · exact checkTree_sound 14 8192 8192 requant_chunk1 n (by omega) (by omega)
  rcases Nat.lt_or_ge n 24576 with h3 | h3
  · exact checkTree_sound 14 16384 8192 requant_chunk2 n (by omega) (by omega)
  · exact checkTree_sound 15 24576 8193 requant_chunk3 n (by omega) (by omega)

/-- C4 counterexample: the raw code 3 has physical value v = 0.003 mV; the
claim's `round(v * 200) = round(0.6) = 1`, but the encoder (float32 scaling
then `.astype(np.int16)`, which truncates toward zero) produces 0. -/
theorem c4_counterexample :
    requantize 3 = 0 ∧ round ((0.003 : ℚ) * 200) = 1 :=
  ⟨by decide, by norm_num [round_eq]⟩

/-- C4 amended: the encoder truncates toward zero rather than rounding: for
every int16 raw code `r`, the integer code equals `v * 200 = r / 5` truncated
toward zero (`Int.tdiv`), the float32 double rounding never moving the value
across an integer boundary. -/
theorem c4_requantize_trunc (r : Int) (h1 : -32768 ≤ r) (h2 : r ≤ 32767) :
    requantize r = r.tdiv 5 := by
  rcases le_or_lt 0 r with hpos | hneg
  · obtain ⟨n, rfl⟩ := Int.eq_ofNat_of_zero_le hpos
    have hn : n ≤ 32768 := by omega
    unfold requantize
    rw [if_neg (by omega : ¬ (n : Int) < 0)]
    rw [show (n : Int).natAbs = n from rfl]
    rw [requantMag_eq_div5 n hn]
    exact Int.ofNat_tdiv n 5
  · obtain ⟨n, hn, rfl⟩ : ∃ n : Nat, n ≤ 32768 ∧ r = -(n : Int) :=
      ⟨r.natAbs, by omega, by omega⟩
    unfold requantize
    rw [if_pos (by omega : (-(n : Int)) < 0)]
    have habs : (-(n : Int)).natAbs = n := by simp
    rw [habs, requantMag_eq_div5 n hn, Int.neg_tdiv]
    exact congrArg Neg.neg (Int.ofNat_tdiv n 5).symm

/-- C4 witness: the amended truncation law at the raw code -7:
the encoder gives -1 (toward zero), not -2. -/
theorem c4_requantize_trunc_witness : requantize (-7) = Int.tdiv (-7) 5 :=
  c4_requantize_trunc (-7) (by decide) (by decide)
